import Mathlib

/-!
Verification development for the service-extensions plugin samples.

The definitions below are shallow embeddings of the plugin logic documented
(with verbatim code excerpts) in the per-sample READMEs: byte strings are
`List Nat` (each element a byte), machine integers are `Nat` with explicit
reduction modulo `2^32` / `2^64`, and every fallible step returns an
`Option`.  Theorems about the claims follow the definitions.
-/

namespace SvcExt

/-! ## Generic character/list utilities shared by the samples -/

/-- Splitting a character list on a separator character, keeping empty
segments (the semantics of `absl::StrSplit` on a single `char`). -/
def splitSeg (sep : Char) : List Char → List (List Char)
  | [] => [[]]
  | c :: cs =>
    match splitSeg sep cs with
    | [] => [[]]
    | s :: ss => if c = sep then [] :: s :: ss else (c :: s) :: ss

/-- Joining segments back with the separator; inverse of `splitSeg`. -/
def joinSeg (sep : Char) : List (List Char) → List Char
  | [] => []
  | [s] => s
  | s :: t :: ss => s ++ sep :: joinSeg sep (t :: ss)

/-- Split on the two-character separator `"; "` used between cookies in a
`Cookie` header, mirroring `absl::StrSplit(cookies, "; ")`. -/
def splitCookieList : List Char → List (List Char)
  | [] => [[]]
  | ';' :: ' ' :: cs => [] :: splitCookieList cs
  | c :: cs =>
    match splitCookieList cs with
    | [] => [[]]
    | s :: ss => (c :: s) :: ss

/-- ASCII lower-casing of one character (`absl::AsciiStrToLower`). -/
def lowerChar (c : Char) : Char :=
  if 'A' ≤ c ∧ c ≤ 'Z' then Char.ofNat (c.toNat + 32) else c

def lowerStr (s : String) : String := ⟨s.data.map lowerChar⟩

/-- The whitespace set `" \f\n\r\t\v"` used by `absl::StripAsciiWhitespace`
and the denylist tokenizer. -/
def isAsciiWs (c : Char) : Bool :=
  c = ' ' || c = '\x0c' || c = '\n' || c = '\x0d' || c = '\t' || c = '\x0b'

def trimAscii (l : List Char) : List Char :=
  ((l.dropWhile isAsciiWs).reverse.dropWhile isAsciiWs).reverse

/-! ## SHA-256 and HMAC-SHA256

The HMAC plugins call OpenSSL's `HMAC(EVP_sha256(), key, data)`; the
definitions below are the standard SHA-256 (FIPS 180-4) and HMAC (RFC 2104)
constructions over byte lists, with 32-bit words as `Nat` reduced modulo
`2^32`. -/

def w32 (x : Nat) : Nat := x % 4294967296

def rotr32 (n x : Nat) : Nat := w32 ((x >>> n) ||| (x <<< (32 - n)))

def bsig0 (x : Nat) : Nat := (rotr32 2 x) ^^^ (rotr32 13 x) ^^^ (rotr32 22 x)

def bsig1 (x : Nat) : Nat := (rotr32 6 x) ^^^ (rotr32 11 x) ^^^ (rotr32 25 x)

def ssig0 (x : Nat) : Nat := (rotr32 7 x) ^^^ (rotr32 18 x) ^^^ (x >>> 3)

def ssig1 (x : Nat) : Nat := (rotr32 17 x) ^^^ (rotr32 19 x) ^^^ (x >>> 10)

def chf (x y z : Nat) : Nat := (x &&& y) ^^^ ((x ^^^ 4294967295) &&& z)

def majf (x y z : Nat) : Nat := (x &&& y) ^^^ (x &&& z) ^^^ (y &&& z)

def sha256K : List Nat :=
  [1116352408, 1899447441, 3049323471, 3921009573,
   961987163, 1508970993, 2453635748, 2870763221,
   3624381080, 310598401, 607225278, 1426881987,
   1925078388, 2162078206, 2614888103, 3248222580,
   3835390401, 4022224774, 264347078, 604807628,
   770255983, 1249150122, 1555081692, 1996064986,
   2554220882, 2821834349, 2952996808, 3210313671,
   3336571891, 3584528711, 113926993, 338241895,
   666307205, 773529912, 1294757372, 1396182291,
   1695183700, 1986661051, 2177026350, 2456956037,
   2730485921, 2820302411, 3259730800, 3345764771,
   3516065817, 3600352804, 4094571909, 275423344,
   430227734, 506948616, 659060556, 883997877,
   958139571, 1322822218, 1537002063, 1747873779,
   1955562222, 2024104815, 2227730452, 2361852424,
   2428436474, 2756734187, 3204031479, 3329325298]

structure Sha256State where
  a : Nat
  b : Nat
  c : Nat
  d : Nat
  e : Nat
  f : Nat
  g : Nat
  hh : Nat

def sha256Init : Sha256State :=
  ⟨1779033703, 3144134277, 1013904242, 2773480762,
   1359893119, 2600822924, 528734635, 1541459225⟩

/-- Big-endian packing of bytes into 32-bit words. -/
def bytesToWords : List Nat → List Nat
  | b0 :: b1 :: b2 :: b3 :: rest =>
    (b0 * 16777216 + b1 * 65536 + b2 * 256 + b3) :: bytesToWords rest
  | _ => []

/-- One extension step of the SHA-256 message schedule. -/
def scheduleNext (ws : List Nat) : Nat :=
  let n := ws.length
  w32 (ssig1 (ws.getD (n - 2) 0) + ws.getD (n - 7) 0 +
       ssig0 (ws.getD (n - 15) 0) + ws.getD (n - 16) 0)

def extendSchedule : List Nat → Nat → List Nat
  | ws, 0 => ws
  | ws, Nat.succ k => extendSchedule (ws ++ [scheduleNext ws]) k

def sha256Round (st : Sha256State) (kw : Nat × Nat) : Sha256State :=
  let t1 := w32 (st.hh + bsig1 st.e + chf st.e st.f st.g + kw.1 + kw.2)
  let t2 := w32 (bsig0 st.a + majf st.a st.b st.c)
  ⟨w32 (t1 + t2), st.a, st.b, st.c, w32 (st.d + t1), st.e, st.f, st.g⟩

def sha256Compress (st : Sha256State) (block : List Nat) : Sha256State :=
  let ws := extendSchedule (bytesToWords block) 48
  let fin := (sha256K.zip ws).foldl sha256Round st
  ⟨w32 (st.a + fin.a), w32 (st.b + fin.b), w32 (st.c + fin.c),
   w32 (st.d + fin.d), w32 (st.e + fin.e), w32 (st.f + fin.f),
   w32 (st.g + fin.g), w32 (st.hh + fin.hh)⟩

/-- 64-bit big-endian length field. -/
def be64 (n : Nat) : List Nat :=
  [n / 72057594037927936 % 256, n / 281474976710656 % 256,
   n / 1099511627776 % 256, n / 4294967296 % 256,
   n / 16777216 % 256, n / 65536 % 256, n / 256 % 256, n % 256]

def sha256Pad (msg : List Nat) : List Nat :=
  msg ++ 128 :: List.replicate ((119 - msg.length % 64) % 64) 0 ++
    be64 (8 * msg.length)

def chunk64Go : Nat → List Nat → List (List Nat)
  | _, [] => []
  | 0, l => [l]
  | Nat.succ k, b :: l => (b :: l).take 64 :: chunk64Go k ((b :: l).drop 64)

def chunk64 (l : List Nat) : List (List Nat) := chunk64Go l.length l

def be32 (n : Nat) : List Nat :=
  [n / 16777216 % 256, n / 65536 % 256, n / 256 % 256, n % 256]

def stateToBytes (s : Sha256State) : List Nat :=
  be32 s.a ++ be32 s.b ++ be32 s.c ++ be32 s.d ++
  be32 s.e ++ be32 s.f ++ be32 s.g ++ be32 s.hh

def sha256 (msg : List Nat) : List Nat :=
  stateToBytes ((chunk64 (sha256Pad msg)).foldl sha256Compress sha256Init)

/-- RFC 2104 HMAC over SHA-256: a key longer than the 64-byte block size is
first replaced by its SHA-256 hash, then zero-padded to the block size. -/
def hmacKeyNorm (key : List Nat) : List Nat :=
  if 64 < key.length then sha256 key else key

def hmacSha256 (key msg : List Nat) : List Nat :=
  let k0 := hmacKeyNorm key
  let kp := k0 ++ List.replicate (64 - k0.length) 0
  sha256 ((kp.map fun b => b ^^^ 92) ++
          sha256 ((kp.map fun b => b ^^^ 54) ++ msg))

/-- Hex encoding as in `absl::BytesToHexString`: lowercase. -/
def hexDigit (n : Nat) : Char :=
  if n < 10 then Char.ofNat (48 + n) else Char.ofNat (87 + n)

def byteToHexChars (b : Nat) : List Char := [hexDigit (b / 16), hexDigit (b % 16)]

def bytesToHex (bs : List Nat) : String := ⟨bs.flatMap byteToHexChars⟩

/-- Bytes of a string, one byte per character (the samples only handle
ASCII payloads, where C++ `std::string` bytes and characters coincide). -/
def strBytes (s : String) : List Nat := s.data.map Char.toNat

/-- Bytes back to a string; each byte is below 256, hence a valid
character. -/
def bytesToStr (bs : List Nat) : String := ⟨bs.map Char.ofNat⟩

/-! ## Base64 decoding (`absl::Base64Unescape`)

Standard alphabet, `=` padding optional, any other character is an
error. -/

def b64Val (c : Char) : Option Nat :=
  if 'A' ≤ c ∧ c ≤ 'Z' then some (c.toNat - 65)
  else if 'a' ≤ c ∧ c ≤ 'z' then some (c.toNat - 71)
  else if '0' ≤ c ∧ c ≤ '9' then some (c.toNat + 4)
  else if c = '+' then some 62
  else if c = '/' then some 63
  else none

def b64DecodeGo : List Char → Option (List Nat)
  | [] => some []
  | [_] => none
  | [a, b] =>
    (b64Val a).bind fun va => (b64Val b).map fun vb =>
      [va * 4 + vb / 16]
  | [a, b, c] =>
    (b64Val a).bind fun va => (b64Val b).bind fun vb => (b64Val c).map fun vc =>
      [va * 4 + vb / 16, vb % 16 * 16 + vc / 4]
  | a :: b :: c :: d :: rest =>
    (b64Val a).bind fun va => (b64Val b).bind fun vb =>
    (b64Val c).bind fun vc => (b64Val d).bind fun vd =>
    (b64DecodeGo rest).map fun tl =>
      (va * 4 + vb / 16) :: (vb % 16 * 16 + vc / 4) :: (vc % 4 * 64 + vd) :: tl

def b64Decode (s : String) : Option (List Nat) :=
  b64DecodeGo ((s.data.reverse.dropWhile (· = '=')).reverse)

/-! ## Regex Rewrite sample (`regex_rewrite`)

The pattern `/foo-([^/]+)/` is embedded as a direct matcher: a literal
`/foo-`, then a maximal nonempty run of non-`/` characters (greediness is
exact here, because the character after a maximal run can never be the
required `/`), then a literal `/`. -/

/-- Match the pattern `/foo-([^/]+)/` at the head of the list, returning
the capture and the remainder after the whole match. -/
def matchFoo : List Char → Option (List Char × List Char)
  | '/' :: 'f' :: 'o' :: 'o' :: '-' :: rest =>
    match rest.takeWhile (fun c => c ≠ '/'), rest.dropWhile (fun c => c ≠ '/') with
    | [], _ => none
    | cap, '/' :: tail => some (cap, tail)
    | _, _ => none
  | _ => none

/-- The C++ `RE2::Replace` / Rust `Regex::replace` with replacement `/$1/`:
replace only the leftmost match. -/
def replaceFirstFoo : List Char → List Char
  | [] => []
  | c :: cs =>
    match matchFoo (c :: cs) with
    | some (cap, rest) => '/' :: (cap ++ '/' :: rest)
    | none => c :: replaceFirstFoo cs

/-- Go `ReplaceAllString` with replacement `/$1/`: replace every
(non-overlapping, left-to-right) match.  The first argument counts
characters still to be skipped because they were consumed by a match. -/
def replaceAllFooGo : Nat → List Char → List Char
  | Nat.succ k, _ :: cs => replaceAllFooGo k cs
  | _, [] => []
  | 0, c :: cs =>
    match matchFoo (c :: cs) with
    | some (cap, _) => '/' :: (cap ++ '/' :: replaceAllFooGo (5 + cap.length) cs)
    | none => c :: replaceAllFooGo 0 cs

/-- The C++/Rust path rewrite (first match only). -/
def regexRewriteFirst (s : String) : String := ⟨replaceFirstFoo s.data⟩

/-- The Go path rewrite (all matches). -/
def regexRewriteGo (s : String) : String := ⟨replaceAllFooGo 0 s.data⟩

/-! ## Check PII sample (`check_pii`)

The credit-card pattern `\d{4}-\d{4}-\d{4}-(\d{4})` and the global
replacement with template `XXXX-XXXX-XXXX-$1`
(`RE2::GlobalReplace` / Go `ReplaceAllString`). -/

def take4Digits : List Char → Option (List Char × List Char)
  | a :: b :: c :: d :: rest =>
    if a.isDigit && b.isDigit && c.isDigit && d.isDigit then
      some ([a, b, c, d], rest)
    else none
  | _ => none

def expectDash : List Char → Option (List Char)
  | '-' :: rest => some rest
  | _ => none

/-- Match `\d{4}-\d{4}-\d{4}-(\d{4})` at the head, returning the capture
(the last four digits).  The pattern is fixed-width (19 characters). -/
def matchCard (l : List Char) : Option (List Char) :=
  (take4Digits l).bind fun p1 =>
  (expectDash p1.2).bind fun r1 =>
  (take4Digits r1).bind fun p2 =>
  (expectDash p2.2).bind fun r2 =>
  (take4Digits r2).bind fun p3 =>
  (expectDash p3.2).bind fun r3 =>
  (take4Digits r3).map fun p4 => p4.1

def maskHead : List Char := ['X', 'X', 'X', 'X', '-', 'X', 'X', 'X', 'X', '-', 'X', 'X', 'X', 'X', '-']

/-- Global replacement: scan left to right; on a match emit the mask and
the captured last four digits and continue after the match (19 characters
consumed); otherwise emit the character.  The first argument counts
characters still to skip from the current match. -/
def maskAllGo : Nat → List Char → List Char
  | Nat.succ k, _ :: cs => maskAllGo k cs
  | _, [] => []
  | 0, c :: cs =>
    match matchCard (c :: cs) with
    | some g4 => maskHead ++ g4 ++ maskAllGo 18 cs
    | none => c :: maskAllGo 0 cs

def maskCardNumbers (s : String) : String := ⟨maskAllGo 0 s.data⟩

/-- A hyphenated card number built from its four digit groups (the shape
matched by the pattern). -/
def cardFmt (g1 g2 g3 g4 : List Char) : List Char :=
  g1 ++ '-' :: g2 ++ '-' :: g3 ++ '-' :: g4

/-! ## Phase outcomes

The outcome of one header-phase callback: either the request proceeds, or
the plugin short-circuits with a synthetic local response
(`sendLocalResponse` / `SendHttpResponse`). -/

inductive Decision where
  | proceed
  | response (status : Nat) (headers : List (String × String)) (body : String)
deriving DecidableEq

/-! ## Content Injection sample (`content_injection`)

Streaming injection of a script tag immediately inside a `<head>`
element.  Output is modelled as a list of items: ordinary characters plus
an `inj` item standing for the injected markup fragment.

The model follows the sample's structure exactly: the `lol_html` element
handler registered for `head` prepends the fragment *unconditionally on
every match* and sets the shared `completed` cell; the rewriter itself
never consults the flag.  The HTTP context feeds the body to the rewriter
in 500-byte parse windows and checks the flag only *between* windows:
when a window ends with the flag set it calls `rewriter.end()`, the rest
of the body passes through untouched, and subsequent
`on_http_response_body` calls return immediately.  The state carries the
number of registered content handlers, so registering the handler twice
is expressible. -/

inductive OutItem where
  | chr (c : Char)
  | inj
deriving DecidableEq

def headTag : List Char := ['<', 'h', 'e', 'a', 'd', '>']

/-- Longest proper prefix of `headTag` that is a suffix of `b` (how much
of a failed partial match can still open a new match). -/
def bestResume (b : List Char) : Nat :=
  ((List.range (min b.length (headTag.length - 1) + 1)).reverse.find?
    fun k => b.drop (b.length - k) == headTag.take k).getD 0

/-- The rewriter bound to one response stream: emitted items, the
retained partial match, the handlers' shared completion cell, and the
number of registered `head` content handlers. -/
structure RwState where
  out : List OutItem
  buf : List Char
  completed : Bool
  handlers : Nat

def initRw (handlers : Nat) : RwState := ⟨[], [], false, handlers⟩

/-- One character of rewriting.  On a complete `<head>` match every
registered handler prepends its fragment and the completion cell is set;
the flag is never consulted here — the rewriter keeps matching. -/
def rwChar (st : RwState) (c : Char) : RwState :=
  let b := st.buf ++ [c]
  if b = headTag then
    { st with
      out := st.out ++ b.map OutItem.chr ++ List.replicate st.handlers OutItem.inj,
      buf := [], completed := true }
  else if b.isPrefixOf headTag then
    { st with buf := b }
  else
    let k := bestResume b
    { st with out := st.out ++ (b.take (b.length - k)).map OutItem.chr,
              buf := b.drop (b.length - k) }

/-- `rewriter.write`: feed one parse window. -/
def rwWrite (st : RwState) (chars : List Char) : RwState :=
  chars.foldl rwChar st

/-- `rewriter.end()`: flush the retained partial match as literal text. -/
def rwEnd (st : RwState) : RwState :=
  { st with out := st.out ++ st.buf.map OutItem.chr, buf := [] }

/-- Split one body callback's bytes into 500-byte parse windows
(`(0..body_size).step_by(chunk_size)`). -/
def windowsGo : Nat → List Char → List (List Char)
  | _, [] => []
  | 0, l => [l]
  | Nat.succ k, c :: l => ((c :: l).take 500) :: windowsGo k ((c :: l).drop 500)

def windows (l : List Char) : List (List Char) := windowsGo l.length l

/-- The per-callback loop: write each window, then check the completion
cell; when it is set, end the rewriter and pass the rest of this body
through untouched, reporting that processing has stopped. -/
def procWindows : RwState → List (List Char) → RwState × Bool
  | rw, [] => (rw, false)
  | rw, w :: ws =>
    let rw' := rwWrite rw w
    if rw'.completed then
      let r := rwEnd rw'
      ({ r with out := r.out ++ ws.flatten.map OutItem.chr }, true)
    else procWindows rw' ws

/-- One `on_http_response_body` callback: return immediately (body passes
through unmodified) once processing has stopped, else run the window
loop. -/
def feedBody (s : RwState × Bool) (chunk : List Char) : RwState × Bool :=
  if s.2 then ({ s.1 with out := s.1.out ++ chunk.map OutItem.chr }, true)
  else procWindows s.1 (windows chunk)

/-- A whole response stream: fold the callbacks, flushing the rewriter at
end of stream if it was never ended early. -/
def runInjectionStream (handlers : Nat) (chunks : List String) : List OutItem :=
  let s := (chunks.map String.data).foldl feedBody (initRw handlers, false)
  if s.2 then s.1.out else (rwEnd s.1).out

def isInj : OutItem → Bool
  | OutItem.inj => true
  | OutItem.chr _ => false

def countInj (l : List OutItem) : Nat := l.countP isInj

/-! ## Redirect Bulk sample (`redirect_bulk`)

Domain-mapping configuration parsing and the 301-redirect request phase,
following the C++ walkthrough (`absl::StrSplit` on newline, strip, skip
comments, split on a space, exactly two parts, lower-case the source). -/

def parseMappingLine (line : List Char) : Option (String × String) :=
  let stripped := trimAscii line
  if stripped = [] ∨ stripped.head? = some '#' then none
  else
    match splitSeg ' ' stripped with
    | [a, b] => some (lowerStr ⟨a⟩, ⟨b⟩)
    | _ => none

def parseMappings (cfg : String) : List (String × String) :=
  (splitSeg '\n' cfg.data).foldl
    (fun acc line =>
      match parseMappingLine line with
      | some kv => acc ++ [kv]
      | none => acc) []

/-- Hash-map lookup where a later assignment to the same key overwrites an
earlier one. -/
def lookupMap (m : List (String × String)) (k : String) : Option String :=
  (m.reverse.find? fun p => p.1 == k).map Prod.snd

def stripPort (authority : String) : String :=
  ⟨authority.data.takeWhile (· ≠ ':')⟩

def redirectBulkOnRequest (m : List (String × String))
    (authority path scheme : String) : Decision :=
  match lookupMap m (lowerStr (stripPort authority)) with
  | some target =>
    let newUrl := scheme ++ "://" ++ target ++ path
    Decision.response 301 [("Location", newUrl)] ("Redirecting to " ++ newUrl)
  | none => Decision.proceed

/-! ## Config Denylist sample (`config_denylist`)

Whitespace-separated token denylist; requests with a missing (or, in the
C++ implementation, empty) `User-Token` header are rejected, tokens on
the denylist are rejected, everything else proceeds. -/

def splitPred (p : Char → Bool) : List Char → List (List Char)
  | [] => [[]]
  | c :: cs =>
    match splitPred p cs with
    | [] => [[]]
    | s :: ss => if p c then [] :: s :: ss else (c :: s) :: ss

def parseDenylist (cfg : Option String) : List String :=
  match cfg with
  | none => []
  | some s => ((splitPred isAsciiWs s.data).filter (· ≠ [])).map fun l => (⟨l⟩ : String)

def denylistOnRequest (tokens : List String) (userToken : Option String) :
    Decision :=
  match userToken with
  | none => Decision.response 403 [] "Access forbidden - token missing.\n"
  | some t =>
    if t = "" then Decision.response 403 [] "Access forbidden - token missing.\n"
    else if tokens.contains t then Decision.response 403 [] "Access forbidden.\n"
    else Decision.proceed

/-! ## Query-parameter handling (`jwt_auth`, `hmac_authtoken`)

Two removal implementations exist in the samples.  The C++ one
(`url->params().erase(it)` on a Boost.URL view) deletes the first
parameter with the given (percent-decoded) key in place, leaving every
other byte of the query untouched.  The Go one
(`query.Del(k); u.RawQuery = query.Encode()`) decodes the whole query
into a map and re-serialises it with keys sorted and values re-escaped
canonically. -/

def hexVal (c : Char) : Option Nat :=
  if '0' ≤ c ∧ c ≤ '9' then some (c.toNat - 48)
  else if 'A' ≤ c ∧ c ≤ 'F' then some (c.toNat - 55)
  else if 'a' ≤ c ∧ c ≤ 'f' then some (c.toNat - 87)
  else none

/-- Lenient percent-decoding: malformed escapes pass through unchanged. -/
def pctDecodeLenient : List Char → List Char
  | [] => []
  | '%' :: a :: b :: rest =>
    match hexVal a, hexVal b with
    | some va, some vb => Char.ofNat (va * 16 + vb) :: pctDecodeLenient rest
    | _, _ => '%' :: pctDecodeLenient (a :: b :: rest)
  | c :: rest => c :: pctDecodeLenient rest

def removeFirstSeg (p : List Char → Bool) : List (List Char) → List (List Char)
  | [] => []
  | s :: ss => if p s then ss else s :: removeFirstSeg p ss

def segHasKey (key : String) (seg : List Char) : Bool :=
  pctDecodeLenient (seg.takeWhile (· ≠ '=')) == key.data

/-- C++ removal: erase the first parameter whose key matches, keeping all
other segments byte-for-byte. -/
def removeParamCpp (q key : String) : String :=
  ⟨joinSeg '&' (removeFirstSeg (segHasKey key) (splitSeg '&' q.data))⟩

/-- Modelled from the spec: `addParam` appends a `key=value` pair to the
query string (no sample adds a token; clients do). -/
def addParamQ (q key value : String) : String :=
  if q = "" then key ++ "=" ++ value else q ++ "&" ++ key ++ "=" ++ value

/-- Go `url.QueryUnescape` as used by `url.Values` parsing: `+` becomes a
space, a malformed percent escape is an error. -/
def queryUnescapeGo : List Char → Option (List Char)
  | [] => some []
  | '%' :: a :: b :: rest =>
    (hexVal a).bind fun va => (hexVal b).bind fun vb =>
      (queryUnescapeGo rest).map fun r => Char.ofNat (va * 16 + vb) :: r
  | '%' :: _ => none
  | '+' :: rest => (queryUnescapeGo rest).map (' ' :: ·)
  | c :: rest => (queryUnescapeGo rest).map (c :: ·)

/-- Append a value under a key in a `url.Values`-style multimap. -/
def goValuesAdd : List (String × List String) → String → String →
    List (String × List String)
  | [], k, v => [(k, [v])]
  | (k', vs') :: rest, k, v =>
    if k' = k then (k', vs' ++ [v]) :: rest
    else (k', vs') :: goValuesAdd rest k v

/-- Go `url.ParseQuery`: split on `&`, skip empty segments, split each at
the first `=`, percent-decode key and value (skipping a pair whose
decoding fails). -/
def goParseValues (q : List Char) : List (String × List String) :=
  (splitSeg '&' q).foldl
    (fun acc seg =>
      if seg = [] then acc
      else
        let k := seg.takeWhile (· ≠ '=')
        let v := (seg.dropWhile (· ≠ '=')).drop 1
        match queryUnescapeGo k, queryUnescapeGo v with
        | some k', some v' => goValuesAdd acc ⟨k'⟩ ⟨v'⟩
        | _, _ => acc) []

def goValuesDel (vs : List (String × List String)) (k : String) :
    List (String × List String) :=
  vs.filter fun p => p.1 ≠ k

def upHexDigit (n : Nat) : Char :=
  if n < 10 then Char.ofNat (48 + n) else Char.ofNat (55 + n)

/-- Go `url.QueryEscape` (query component): keep unreserved characters,
encode a space as `+`, percent-encode everything else (ASCII input). -/
def queryEscapeChar (c : Char) : List Char :=
  if c.isAlphanum || c = '-' || c = '_' || c = '.' || c = '~' then [c]
  else if c = ' ' then ['+']
  else ['%', upHexDigit (c.toNat / 16), upHexDigit (c.toNat % 16)]

def queryEscapeGo (s : String) : String := ⟨s.data.flatMap queryEscapeChar⟩

def lexLe : List Char → List Char → Bool
  | [], _ => true
  | _ :: _, [] => false
  | a :: as, b :: bs =>
    if a.toNat < b.toNat then true
    else if b.toNat < a.toNat then false
    else lexLe as bs

def insertSorted (x : String) : List String → List String
  | [] => [x]
  | y :: ys => if lexLe x.data y.data then x :: y :: ys else y :: insertSorted x ys

/-- Go `sort.Strings` (insertion formulation, stable result for distinct
keys). -/
def sortStrs : List String → List String
  | [] => []
  | x :: xs => insertSorted x (sortStrs xs)

/-- Go `url.Values.Encode`: keys sorted, each value escaped, joined with
`&`. -/
def goEncodeValues (vs : List (String × List String)) : String :=
  String.intercalate "&"
    ((sortStrs (vs.map Prod.fst)).flatMap fun k =>
      ((vs.find? fun p => p.1 == k).map Prod.snd).getD [] |>.map fun v =>
        queryEscapeGo k ++ "=" ++ queryEscapeGo v)

/-- Go removal: `query.Del(key); query.Encode()`. -/
def removeParamGo (q key : String) : String :=
  goEncodeValues (goValuesDel (goParseValues q.data) key)

/-! ## HMAC Auth Cookie sample (`hmac_authcookie`)

The full request-headers pipeline: client-IP extraction from
`X-Forwarded-For`, `Authorization` cookie extraction, base64 parsing,
HMAC-SHA256 verification, client-IP binding, expiration. -/

/-- The anchored pattern `^(?:[0-9]{1,3}\.){3}[0-9]{1,3}$`.  Each group is
a maximal run of one to three digits (greediness is exact: a longer run
makes both the greedy and every backtracked parse fail, since a digit can
never match the following `.` or the end). -/
def ipv4Group (l : List Char) : Option (List Char) :=
  let run := l.takeWhile Char.isDigit
  if run.length = 0 ∨ 3 < run.length then none else some (l.drop run.length)

def expectDot : List Char → Option (List Char)
  | '.' :: rest => some rest
  | _ => none

def ipv4Full (l : List Char) : Bool :=
  match ((((((ipv4Group l).bind expectDot).bind ipv4Group).bind
      expectDot).bind ipv4Group).bind expectDot).bind ipv4Group with
  | some [] => true
  | _ => false

/-- Step 1: first comma-separated `X-Forwarded-For` entry that fully
matches the IPv4 pattern. -/
def getClientIp (xff : Option String) : Option String :=
  xff.bind fun s =>
    ((splitSeg ',' s.data).find? ipv4Full).map fun l => (⟨l⟩ : String)

/-- Step 2: the `Authorization` cookie value from the `Cookie` header
(cookies separated by `"; "`, each split at the first `=`). -/
def getAuthCookie (cookieHdr : Option String) : Option String :=
  cookieHdr.bind fun s =>
    ((splitCookieList s.data).find?
        fun sp => sp.takeWhile (· ≠ '=') == ['A', 'u', 't', 'h', 'o', 'r', 'i', 'z', 'a', 't', 'i', 'o', 'n']).map
      fun sp => (⟨(sp.dropWhile (· ≠ '=')).drop 1⟩ : String)

/-- Step 3: `base64(payload) ++ "." ++ base64(hash)`; the pair conversion
of `absl::StrSplit` takes the first two components. -/
def parseAuthCookie (cookie : String) : Option (List Nat × List Nat) :=
  let parts := splitSeg '.' cookie.data
  (b64Decode ⟨parts.getD 0 []⟩).bind fun payload =>
    (b64Decode ⟨parts.getD 1 []⟩).map fun hash => (payload, hash)

def kSecretKey : String := "your_secret_key"

/-- The `computeHmac` operation of the spec's token validator: HMAC-SHA256 under an
arbitrary secret, rendered as a lowercase hex string, exactly as both
HMAC plugins do (`HMAC(EVP_sha256(), key, data)` then
`absl::BytesToHexString`). -/
def computeHmacHex (secret msg : List Nat) : String :=
  bytesToHex (hmacSha256 secret msg)

/-- The `verifySymmetric` operation of the spec's token validator, as realised by both
HMAC plugins: recompute the digest over the payload with the given secret
and compare it with the presented signature. -/
def verifySymmetric (payload : List Nat) (signature : String)
    (secret : List Nat) : Bool :=
  decide (computeHmacHex secret payload = signature)

/-- The sample's `computeHmacSignature`: HMAC-SHA256 under the hardcoded secret,
rendered as a lowercase hex string. -/
def computeHmacSignature (data : List Nat) : String :=
  computeHmacHex (strBytes kSecretKey) data

/-- The README's example cookie: payload `127.0.0.1,1735700400000000000`
with its genuine HMAC-SHA256 hex digest, both base64-encoded. -/
def exampleCookie : String :=
  "MTI3LjAuMC4xLDE3MzU3MDA0MDAwMDAwMDAwMDA.MThmNzliYzBhMzA3YzhiMmI4OTFiMTQ0NzNhMmFhNjljYWVkNGVmMzYwY2NiNTRjZTU3YWY0MTczZGMwMGZkNA"

/-- The same payload with a well-formed but wrong signature segment
(base64 of `deadbeef`). -/
def tamperedCookie : String :=
  "MTI3LjAuMC4xLDE3MzU3MDA0MDAwMDAwMDAwMDA.ZGVhZGJlZWY"

/-- The test environment time of the README's expected-behavior table
(Tue Dec 31 2024 03:00:00 GMT, in nanoseconds). -/
def exampleNowNs : Int := 1735614000000000000

def parseDigitsNat (l : List Char) : Option Nat :=
  if l = [] then none
  else if l.all Char.isDigit then
    some (l.foldl (fun n c => n * 10 + (c.toNat - 48)) 0)
  else none

/-- Integer parsing as in `absl::SimpleAtoi` into `int64_t` (the sample's timestamps are far
below the overflow range). -/
def parseInt64 : List Char → Option Int
  | '-' :: rest => (parseDigitsNat rest).map fun n => -(n : Int)
  | l => (parseDigitsNat l).map fun n => (n : Int)

/-- Expiry-style freshness: valid iff `unix_now <= expiration`. -/
def cookieFresh (unixNow expiry : Int) : Bool := decide (unixNow ≤ expiry)

def checkCookieExpiration (unixNow : Int) (expChars : List Char) : Bool :=
  match parseInt64 expChars with
  | some ts => cookieFresh unixNow ts
  | none => false

def bodyMissingIp : String := "Access forbidden - missing client IP.\n"
def bodyMissingCookie : String := "Access forbidden - missing HMAC cookie.\n"
def bodyInvalidCookie : String := "Access forbidden - invalid HMAC cookie.\n"
def bodyInvalidHash : String := "Access forbidden - invalid HMAC hash.\n"
def bodyInvalidIp : String := "Access forbidden - invalid client IP.\n"
def bodyExpired : String := "Access forbidden - hash expired.\n"

/-- The request-headers phase of `hmac_authcookie`, in the documented
order: client IP, cookie presence, cookie parse, HMAC verification, IP
binding, expiration. -/
def authCookieOnRequest (unixNow : Int) (xff cookieHdr : Option String) :
    Decision :=
  match getClientIp xff with
  | none => Decision.response 403 [] bodyMissingIp
  | some ip =>
    match getAuthCookie cookieHdr with
    | none => Decision.response 403 [] bodyMissingCookie
    | some cookie =>
      match parseAuthCookie cookie with
      | none => Decision.response 403 [] bodyInvalidCookie
      | some ph =>
        if computeHmacSignature ph.1 ≠ bytesToStr ph.2 then
          Decision.response 403 [] bodyInvalidHash
        else
          let payloadStr := ph.1.map Char.ofNat
          if payloadStr.takeWhile (· ≠ ',') ≠ ip.data then
            Decision.response 403 [] bodyInvalidIp
          else if ¬ checkCookieExpiration unixNow
              ((payloadStr.dropWhile (· ≠ ',')).drop 1) then
            Decision.response 403 [] bodyExpired
          else Decision.proceed

/-! ## HMAC Token Validation sample (`hmac_token_validation`)

The expiration check is performed in C++ `uint64_t` arithmetic:
`(current_time - token_timestamp) > token_validity_seconds_`. -/

def tokenValiditySeconds : Nat := 300

/-- Wrap-around subtraction of 64-bit unsigned integers. -/
def sub64 (a b : Nat) : Nat :=
  (a % 18446744073709551616 +
    (18446744073709551616 - b % 18446744073709551616)) % 18446744073709551616

/-- The sample's max-age freshness check: the token passes iff the
`uint64` difference `current_time - token_timestamp` is at most 300. -/
def hmacTokenFresh (currentTime tokenTimestamp : Nat) : Bool :=
  !decide (tokenValiditySeconds < sub64 currentTime tokenTimestamp)

set_option maxRecDepth 1000000

/-! ## General lemmas about the shared utilities -/

theorem splitSeg_ne_nil (sep : Char) (l : List Char) : splitSeg sep l ≠ [] := by
  cases l with
  | nil => simp [splitSeg]
  | cons c cs =>
    simp only [splitSeg]
    cases splitSeg sep cs with
    | nil => simp
    | cons s ss =>
      by_cases hc : c = sep <;> simp [hc]

theorem joinSeg_splitSeg (sep : Char) (l : List Char) :
    joinSeg sep (splitSeg sep l) = l := by
  induction l with
  | nil => rfl
  | cons c cs ih =>
    cases h : splitSeg sep cs with
    | nil => exact absurd h (splitSeg_ne_nil sep cs)
    | cons s ss =>
      rw [h] at ih
      by_cases hc : c = sep
      · subst hc
        simp only [splitSeg, h, if_pos rfl]
        cases ss with
        | nil => simpa [joinSeg] using ih
        | cons t ts => simpa [joinSeg] using ih
      · simp only [splitSeg, h, if_neg hc]
        cases ss with
        | nil => simpa [joinSeg] using ih
        | cons t ts => simpa [joinSeg] using ih

theorem splitSeg_of_not_mem {sep : Char} {l : List Char} (h : sep ∉ l) :
    splitSeg sep l = [l] := by
  induction l with
  | nil => rfl
  | cons c cs ih =>
    have hc : c ≠ sep := fun hh => h (hh ▸ List.mem_cons_self c cs)
    have hcs : sep ∉ cs := fun hh => h (List.mem_cons_of_mem c hh)
    simp [splitSeg, ih hcs, hc]

theorem splitSeg_append_sep {sep : Char} (q t : List Char) (h : sep ∉ t) :
    splitSeg sep (q ++ sep :: t) = splitSeg sep q ++ [t] := by
  induction q with
  | nil => simp [splitSeg, splitSeg_of_not_mem h]
  | cons c cs ih =>
    have hstep : (c :: cs) ++ sep :: t = c :: (cs ++ sep :: t) := rfl
    rw [hstep]
    simp only [splitSeg, ih]
    cases hcs : splitSeg sep cs with
    | nil => exact absurd hcs (splitSeg_ne_nil sep cs)
    | cons s ss =>
      by_cases hc : c = sep <;> simp [hc]

theorem takeWhile_append_stop {p : Char → Bool} {cap : List Char} {d : Char}
    (rest : List Char) (hcap : ∀ c ∈ cap, p c = true) (hd : p d = false) :
    (cap ++ d :: rest).takeWhile p = cap := by
  induction cap with
  | nil => simp [List.takeWhile_cons, hd]
  | cons c cs ih =>
    have hc : p c = true := hcap c (List.mem_cons_self c cs)
    have hcs : ∀ x ∈ cs, p x = true := fun x hx => hcap x (List.mem_cons_of_mem c hx)
    simp [List.takeWhile_cons, hc, ih hcs]

theorem dropWhile_append_stop {p : Char → Bool} {cap : List Char} {d : Char}
    (rest : List Char) (hcap : ∀ c ∈ cap, p c = true) (hd : p d = false) :
    (cap ++ d :: rest).dropWhile p = d :: rest := by
  induction cap with
  | nil => simp [List.dropWhile_cons, hd]
  | cons c cs ih =>
    have hc : p c = true := hcap c (List.mem_cons_self c cs)
    have hcs : ∀ x ∈ cs, p x = true := fun x hx => hcap x (List.mem_cons_of_mem c hx)
    simp [List.dropWhile_cons, hc, ih hcs]

theorem removeFirstSeg_append_of {p : List Char → Bool} {l : List (List Char)}
    {t : List Char} (hl : ∀ s ∈ l, p s = false) (ht : p t = true) :
    removeFirstSeg p (l ++ [t]) = l := by
  induction l with
  | nil => simp [removeFirstSeg, ht]
  | cons s ss ih =>
    have hs : p s = false := hl s (List.mem_cons_self s ss)
    have hss : ∀ x ∈ ss, p x = false := fun x hx => hl x (List.mem_cons_of_mem s hx)
    simp [removeFirstSeg, hs, ih hss]

/-! ## Lemmas about the `/foo-([^/]+)/` matcher -/

theorem matchFoo_at {cap : List Char} (rest : List Char) (hne : cap ≠ [])
    (hns : ∀ c ∈ cap, c ≠ '/') :
    matchFoo ('/' :: 'f' :: 'o' :: 'o' :: '-' :: (cap ++ '/' :: rest)) =
      some (cap, rest) := by
  have hcap : ∀ c ∈ cap, (decide ¬(c = '/')) = true := by
    intro c hc
    simpa using hns c hc
  have hslash : (decide ¬('/' = '/')) = false := by decide
  simp only [matchFoo]
  rw [takeWhile_append_stop rest hcap hslash, dropWhile_append_stop rest hcap hslash]
  cases cap with
  | nil => exact absurd rfl hne
  | cons c cs => rfl

/-! ## Claim C1 -/

/-- C1, counterexample: the claim asserts that every implementation of the
path rewrite replaces only the first match and leaves every later match
unchanged.  The Go implementation uses `ReplaceAllString`: on
`/foo-a/x/foo-b/` it also rewrites the later match `/foo-b/`, giving
`/a/x/b/`, while the first-match implementations give `/a/x/foo-b/`. -/
theorem C1_counterexample :
    regexRewriteGo "/foo-a/x/foo-b/" = "/a/x/b/" ∧
    regexRewriteFirst "/foo-a/x/foo-b/" = "/a/x/foo-b/" ∧
    regexRewriteGo "/foo-a/x/foo-b/" ≠ regexRewriteFirst "/foo-a/x/foo-b/" := by
  refine ⟨by decide, by decide, by decide⟩

/-- C1, amended: on the cited input `/pre/foo-one/foo-two/post?a=b` every
implementation (first-match C++/Rust and replace-all Go) yields
`/pre/one/foo-two/post?a=b`, because the first replacement consumes the
slash that the second occurrence would need; and in general the
first-match operation replaces the leftmost match `/foo-cap/` and emits
the whole remainder of the string after it unchanged. -/
theorem C1_regexReplaceFirst :
    regexRewriteFirst "/pre/foo-one/foo-two/post?a=b" = "/pre/one/foo-two/post?a=b" ∧
    regexRewriteGo "/pre/foo-one/foo-two/post?a=b" = "/pre/one/foo-two/post?a=b" ∧
    ∀ (cap rest : List Char), cap ≠ [] → (∀ c ∈ cap, c ≠ '/') →
      replaceFirstFoo ('/' :: 'f' :: 'o' :: 'o' :: '-' :: (cap ++ '/' :: rest)) =
        '/' :: (cap ++ '/' :: rest) := by
  refine ⟨by decide, by decide, ?_⟩
  intro cap rest hne hns
  have hm := matchFoo_at rest hne hns
  simp [replaceFirstFoo, hm]

/-- C1, witness for the amended theorem: instantiated at the capture
`one` with the remainder `foo-two/post?a=b`, which is emitted unchanged. -/
theorem C1_regexReplaceFirst_witness :
    replaceFirstFoo ('/' :: 'f' :: 'o' :: 'o' :: '-' ::
        (['o', 'n', 'e'] ++ '/' :: "foo-two/post?a=b".data)) =
      '/' :: (['o', 'n', 'e'] ++ '/' :: "foo-two/post?a=b".data) :=
  C1_regexReplaceFirst.2.2 ['o', 'n', 'e'] "foo-two/post?a=b".data
    (by decide) (by decide)

/-! ## Claim C3 -/

/-- C3, counterexample: the claim asserts that under the max-age form a
token whose timestamp lies in the future is fresh.  The sample computes
`current_time - token_timestamp` in `uint64` arithmetic, so at
`now = 1000`, `timestamp = 1001` the difference wraps around to
`2^64 - 1 > 300` and the token is rejected, although the mathematical
difference `now - ts = -1` is at most the max age. -/
theorem C3_counterexample :
    hmacTokenFresh 1000 1001 = false ∧ ((1000 : Int) - 1001 ≤ 300) := by
  refine ⟨by decide, by decide⟩

/-- C3, amended: under the max-age form the check is performed with
64-bit wrap-around: for `ts ≤ now` it accepts exactly when
`now - ts ≤ 300`, but a future timestamp wraps around and is rejected
(whenever `ts - now < 2^64 - 300`, which covers every realistic clock
value); under the expiry form the cookie check accepts exactly when
`now ≤ expiry`. -/
theorem C3_checkFreshness :
    (∀ now ts : Nat, now < 18446744073709551616 → ts < 18446744073709551616 →
      ((ts ≤ now → (hmacTokenFresh now ts = true ↔ now - ts ≤ 300)) ∧
       (now < ts → ts - now < 18446744073709551316 →
         hmacTokenFresh now ts = false))) ∧
    (∀ unixNow expiry : Int, cookieFresh unixNow expiry = true ↔ unixNow ≤ expiry) := by
  constructor
  · intro now ts hn ht
    constructor
    · intro hle
      have hsub : sub64 now ts = now - ts := by
        simp only [sub64]
        omega
      simp [hmacTokenFresh, tokenValiditySeconds, hsub]
    · intro hlt hbound
      have hsub : sub64 now ts = 18446744073709551616 - (ts - now) := by
        simp only [sub64]
        omega
      simp [hmacTokenFresh, tokenValiditySeconds, hsub]
      omega
  · intro n e
    simp [cookieFresh]

/-- C3, witness: at `now = 1717000300`, `ts = 1717000000` the difference
is exactly 300 and the token is fresh; at `now = 1000`, `ts = 1300` the
timestamp is in the future and the token is rejected; the expiry form at
`now = 5`, `expiry = 5` accepts. -/
theorem C3_checkFreshness_witness :
    hmacTokenFresh 1717000300 1717000000 = true ∧
    hmacTokenFresh 1000 1300 = false ∧
    cookieFresh 5 5 = true := by
  refine ⟨?_, ?_, ?_⟩
  · exact ((C3_checkFreshness.1 1717000300 1717000000 (by decide) (by decide)).1
      (by decide)).mpr (by decide)
  · exact (C3_checkFreshness.1 1000 1300 (by decide) (by decide)).2
      (by decide) (by decide)
  · exact (C3_checkFreshness.2 5 5).mpr (by decide)

/-! ## Claim C9 -/

/-- C9, counterexample: the claim asserts that with an empty denylist
every request carrying a `User-Token` header is allowed regardless of the
token's value.  The C++ implementation treats an empty header value like
a missing header: a request carrying `User-Token:` with the empty value
is rejected with the missing-token body, not allowed. -/
theorem C9_counterexample :
    denylistOnRequest (parseDenylist none) (some "") ≠ Decision.proceed ∧
    denylistOnRequest (parseDenylist none) (some "") =
      Decision.response 403 [] "Access forbidden - token missing.\n" := by
  refine ⟨by decide, by decide⟩

/-- C9, amended: with no configuration blob the plugin loads an empty
denylist and initialization succeeds; every request carrying a
`User-Token` header with a non-empty value is allowed regardless of the
value (fail-open), while a request with no `User-Token` header (or, in
the C++ implementation, an empty value) is rejected with a 403 response
and the missing-token body. -/
theorem C9_denylistNoConfig :
    parseDenylist none = [] ∧
    (∀ t : String, t ≠ "" →
      denylistOnRequest (parseDenylist none) (some t) = Decision.proceed) ∧
    denylistOnRequest (parseDenylist none) none =
      Decision.response 403 [] "Access forbidden - token missing.\n" := by
  refine ⟨rfl, ?_, rfl⟩
  intro t ht
  simp [denylistOnRequest, parseDenylist, ht]

/-- C9, witness: the no-config test's denylisted value `bad-user` is
allowed once the denylist is empty. -/
theorem C9_denylistNoConfig_witness :
    denylistOnRequest (parseDenylist none) (some "bad-user") = Decision.proceed :=
  C9_denylistNoConfig.2.1 "bad-user" (by decide)

/-! ## Claim C8 -/

/-- C8: with the mapping `abc.com → xyz.com`, a request with authority
`ABC.com:8080` and path `/p` is short-circuited with a 301 redirect whose
`Location` is `scheme://xyz.com/p` for every scheme — the source-domain
match is case-insensitive and the port is dropped — while any request
whose (lower-cased, port-stripped) authority has no mapping proceeds
unmodified. -/
theorem C8_redirectBulk :
    (∀ scheme : String,
      redirectBulkOnRequest (parseMappings "abc.com xyz.com") "ABC.com:8080" "/p"
          scheme =
        Decision.response 301 [("Location", scheme ++ "://xyz.com/p")]
          ("Redirecting to " ++ (scheme ++ "://xyz.com/p"))) ∧
    (∀ (m : List (String × String)) (authority path scheme : String),
      lookupMap m (lowerStr (stripPort authority)) = none →
      redirectBulkOnRequest m authority path scheme = Decision.proceed) := by
  constructor
  · intro scheme
    have hm : lookupMap (parseMappings "abc.com xyz.com")
        (lowerStr (stripPort "ABC.com:8080")) = some "xyz.com" := by decide
    have ha : scheme ++ "://" ++ "xyz.com" ++ "/p" = scheme ++ "://xyz.com/p" := by
      rw [String.append_assoc, String.append_assoc]
      exact congrArg (scheme ++ ·) (by decide)
    simp [redirectBulkOnRequest, hm, ha]
  · intro m authority path scheme h
    simp [redirectBulkOnRequest, h]

/-- C8, witness: the unmapped authority `example.com` from the
`NoRedirect` test proceeds unchanged. -/
theorem C8_redirectBulk_witness :
    redirectBulkOnRequest (parseMappings "abc.com xyz.com") "example.com"
      "/main/somepage/otherpage" "https" = Decision.proceed :=
  C8_redirectBulk.2 (parseMappings "abc.com xyz.com") "example.com"
    "/main/somepage/otherpage" "https" (by decide)

/-! ## Claim C5 -/

/-- C5, counterexample: the claim asserts
`removeParam(addParam(url, "token", "x"), "token") == url` byte for byte,
with order preserved.  The Go implementation removes a parameter with
`query.Del` followed by `query.Encode()`, which re-serialises the
remaining parameters sorted by key: starting from the query `b=2&a=1`
the round trip returns `a=1&b=2`, not the original. -/
theorem C5_counterexample :
    removeParamGo (addParamQ "b=2&a=1" "token" "x") "token" ≠ "b=2&a=1" ∧
    removeParamGo (addParamQ "b=2&a=1" "token" "x") "token" = "a=1&b=2" := by
  refine ⟨by decide, by decide⟩

/-- C5, amended: the round trip holds for the C++ in-place removal
(`url->params().erase` of the first matching parameter), which keeps
every other segment byte for byte in order: for every query string
without a `token` parameter, removing `token` after appending
`token=x` returns the original query exactly.  (The Go
`query.Del`/`query.Encode` removal instead re-serialises the remaining
parameters sorted by key with canonical re-escaping.) -/
theorem C5_removeParamRoundTrip :
    ∀ q : String, (∀ seg ∈ splitSeg '&' q.data, segHasKey "token" seg = false) →
      removeParamCpp (addParamQ q "token" "x") "token" = q := by
  intro q hq
  by_cases hq0 : q = ""
  · subst hq0; decide
  · have hamp : '&' ∉ "token=x".data := by decide
    have hdata : (addParamQ q "token" "x").data = q.data ++ '&' :: "token=x".data := by
      simp [addParamQ, hq0, String.data_append]
    have htok : segHasKey "token" "token=x".data = true := by decide
    cases q with
    | mk qd =>
      simp only [removeParamCpp, hdata]
      rw [splitSeg_append_sep _ _ hamp, removeFirstSeg_append_of hq htok,
        joinSeg_splitSeg]

/-- C5, witness for the amended round trip: the query `b=2&a=1` (no
`token` parameter) survives the round trip byte for byte, order
preserved. -/
theorem C5_removeParamRoundTrip_witness :
    removeParamCpp (addParamQ "b=2&a=1" "token" "x") "token" = "b=2&a=1" :=
  C5_removeParamRoundTrip "b=2&a=1" (by decide)

/-! ## Lemmas about the streaming injection state -/

theorem countInj_append (a b : List OutItem) :
    countInj (a ++ b) = countInj a + countInj b := by
  simp [countInj, List.countP_append]

theorem countInj_mapChr (l : List Char) : countInj (l.map OutItem.chr) = 0 := by
  rw [countInj, List.countP_eq_zero]
  intro x hx
  obtain ⟨c, _, rfl⟩ := List.mem_map.mp hx
  simp [isInj]

/-- Once a callback has observed the completion flag at a window boundary
and stopped, every later body callback returns immediately: the content
passes through as literal characters and no further fragment is ever
injected. -/
theorem foldl_feedBody_done (chunks : List (List Char)) (rw : RwState) :
    (chunks.foldl feedBody (rw, true)).2 = true ∧
    countInj (chunks.foldl feedBody (rw, true)).1.out = countInj rw.out := by
  induction chunks generalizing rw with
  | nil => exact ⟨rfl, rfl⟩
  | cons c cs ih =>
    have hstep : feedBody (rw, true) c =
        ({ rw with out := rw.out ++ c.map OutItem.chr }, true) := by
      simp [feedBody]
    rw [List.foldl_cons, hstep]
    have h := ih { rw with out := rw.out ++ c.map OutItem.chr }
    refine ⟨h.1, ?_⟩
    rw [h.2]
    simp [countInj_append, countInj_mapChr]

theorem countInj_flatten_mapChr (ws : List (List Char)) :
    countInj (List.map (List.map OutItem.chr) ws).flatten = 0 := by
  induction ws with
  | nil => rfl
  | cons w ws ih => simp [countInj_append, countInj_mapChr, ih]

/-! ## Claim C6 -/

/-- C6, counterexample: the claim asserts the fragment appears exactly
once even when the selector matches multiple elements, with the
at-most-once behaviour maintained by the completion flag, and that
calling the injection twice still yields one fragment.  The element
handler prepends unconditionally on every match and the flag is checked
only between 500-byte parse windows, so a stream with two `<head>`
elements inside one window receives two fragments, and registering the
handler twice injects two fragments at a single match. -/
theorem C6_counterexample :
    countInj (runInjectionStream 1 ["<head>a</head><head>b</head>"]) = 2 ∧
    countInj (runInjectionStream 2 ["<head>a</head>"]) = 2 := by
  refine ⟨by decide, by decide⟩

/-- C6, amended: the completion flag stops processing only at parse-window
and body-callback boundaries.  Whenever a 500-byte window ends with the
flag set, the rewriter is ended and all remaining windows of that
callback pass through with no further fragment; once stopped, every
later callback passes through with no further fragment; hence a stream
whose single `<head>` lies within one window — even split across two
callbacks — gets exactly one fragment, and a second `<head>` arriving in
a later callback is not rewritten. -/
theorem C6_injectionPerWindow :
    (∀ (rw : RwState) (w : List Char) (ws : List (List Char)),
      (rwWrite rw w).completed = true →
      (procWindows rw (w :: ws)).2 = true ∧
      countInj (procWindows rw (w :: ws)).1.out =
        countInj (rwEnd (rwWrite rw w)).out) ∧
    (∀ (rw : RwState) (chunks : List (List Char)),
      countInj ((chunks.foldl feedBody (rw, true)).1.out) = countInj rw.out) ∧
    countInj (runInjectionStream 1 ["<head><title>Page Title</title></head>"]) = 1 ∧
    countInj (runInjectionStream 1 ["<he", "ad><title>x</title></head>"]) = 1 ∧
    countInj (runInjectionStream 1 ["<head>a", "<head>b"]) = 1 := by
  refine ⟨?_, ?_, by decide, by decide, by decide⟩
  · intro rw w ws h
    constructor
    · simp [procWindows, h]
    · simp [procWindows, h, rwEnd, countInj_append, countInj_mapChr,
        countInj_flatten_mapChr]
  · intro rw chunks
    exact (foldl_feedBody_done chunks rw).2

/-- C6, witness for the amended theorem: a window consisting of one
`<head>` element sets the flag; the following window `x` then passes
through, leaving the injection count of the ended rewriter unchanged. -/
theorem C6_injectionPerWindow_witness :
    (procWindows (initRw 1) ("<head>".data :: [['x']])).2 = true ∧
    countInj (procWindows (initRw 1) ("<head>".data :: [['x']])).1.out =
      countInj (rwEnd (rwWrite (initRw 1) "<head>".data)).out :=
  C6_injectionPerWindow.1 (initRw 1) "<head>".data [['x']] (by decide)

/-! ## Lemmas about SHA-256 and HMAC -/

/-- A SHA-256 digest always has 32 bytes. -/
theorem sha256_length (msg : List Nat) : (sha256 msg).length = 32 := by
  simp [sha256, stateToBytes, be32]

/-- The RFC 2104 key normalisation makes a key longer than the block size
interchangeable with its SHA-256 hash: both are normalised to the same
block key, so every HMAC digest agrees. -/
theorem hmac_long_key (key msg : List Nat) (h : 64 < key.length) :
    hmacSha256 key msg = hmacSha256 (sha256 key) msg := by
  have h32 : (sha256 key).length = 32 := sha256_length key
  simp [hmacSha256, hmacKeyNorm, h, h32]

/-! ## Claim C2 -/

/-- C2, counterexample: the claim asserts that for every secret' different
from the signing secret, verification fails.  Take a 65-byte secret `K`
(longer than the SHA-256 block size): its hash `sha256 K` is a different
secret (32 bytes), yet HMAC normalises both to the same block key, so a
digest signed under `K` verifies under `sha256 K` as well. -/
theorem C2_counterexample :
    sha256 (List.replicate 65 65) ≠ List.replicate 65 65 ∧
    verifySymmetric (strBytes "payload")
      (computeHmacHex (List.replicate 65 65) (strBytes "payload"))
      (sha256 (List.replicate 65 65)) = true := by
  constructor
  · intro h
    have hlen := congrArg List.length h
    rw [sha256_length] at hlen
    simp at hlen
  · have h65 : 64 < (List.replicate 65 (65 : Nat)).length := by simp
    show decide (computeHmacHex (sha256 (List.replicate 65 65)) (strBytes "payload") =
      computeHmacHex (List.replicate 65 65) (strBytes "payload")) = true
    rw [computeHmacHex, computeHmacHex, hmac_long_key _ _ h65]
    simp

/-- C2, amended: verification with the signing secret always succeeds,
and in general verification succeeds exactly when the digest recomputed
under the presented secret equals the presented signature — hence
mutating any byte of the digest always makes verification fail, and a
different secret or a mutated payload makes it fail precisely when the
recomputed digest differs (which a 65-byte key and its SHA-256 hash show
is not forced for literally every different secret). -/
theorem C2_verifySymmetric :
    (∀ payload secret : List Nat,
      verifySymmetric payload (computeHmacHex secret payload) secret = true) ∧
    (∀ (payload secret : List Nat) (signature : String),
      verifySymmetric payload signature secret = true ↔
        computeHmacHex secret payload = signature) := by
  constructor
  · intro p s
    simp [verifySymmetric]
  · intro p s sig
    simp [verifySymmetric]

/-! ## Claims C4 and C10 (HMAC auth-cookie pipeline) -/


/-- C4, counterexample: the claim asserts the binding-mismatch rejection
is independent of whether the cookie's signature is valid.  A request
from `127.0.0.2` carrying a cookie that binds `127.0.0.1` but whose
signature segment is wrong is rejected with the invalid-HMAC-hash body,
not the invalid-client-IP body: signature verification runs before IP
binding, so the diagnostic does depend on signature validity. -/
theorem C4_counterexample :
    authCookieOnRequest exampleNowNs (some "127.0.0.2")
        (some ("Authorization=" ++ tamperedCookie)) =
      Decision.response 403 [] bodyInvalidHash ∧
    bodyInvalidHash ≠ bodyInvalidIp := by
  refine ⟨by decide, by decide⟩

/-- C4, amended: whenever the signature check fails the rejection is the
signature-invalid diagnostic regardless of any IP mismatch (HMAC
verification precedes IP validation); when the signature is valid and the
bound IP `127.0.0.1` differs from the observed `127.0.0.2`, the rejection
is the distinct invalid-client-IP diagnostic; and the six rejection
bodies are pairwise distinct, so the binding-mismatch reason is never
merged with the signature-invalid, missing, malformed, or expired
reasons. -/
theorem C4_bindingMismatch :
    (∀ (now : Int) (xff ch : Option String) (ip cookie : String)
        (ph : List Nat × List Nat),
      getClientIp xff = some ip →
      getAuthCookie ch = some cookie →
      parseAuthCookie cookie = some ph →
      computeHmacSignature ph.1 ≠ bytesToStr ph.2 →
      authCookieOnRequest now xff ch = Decision.response 403 [] bodyInvalidHash) ∧
    authCookieOnRequest exampleNowNs
        (some "<existing-values>,127.0.0.2,<load-balancer-ip>")
        (some ("Authorization=" ++ exampleCookie)) =
      Decision.response 403 [] bodyInvalidIp ∧
    List.Pairwise (· ≠ ·)
      [bodyMissingIp, bodyMissingCookie, bodyInvalidCookie, bodyInvalidHash,
       bodyInvalidIp, bodyExpired] := by
  refine ⟨?_, by decide, by decide⟩
  intro now xff ch ip cookie ph h1 h2 h3 h4
  simp [authCookieOnRequest, h1, h2, h3, h4]

/-- C4, witness for the amended theorem: the cookie `abc` parses (both
segments base64-decode), its recomputed digest does not match, and the
pipeline rejects with the invalid-HMAC-hash body even though the observed
IP also fails to match the payload. -/
theorem C4_bindingMismatch_witness :
    authCookieOnRequest 0 (some "127.0.0.2") (some "Authorization=abc") =
      Decision.response 403 [] bodyInvalidHash :=
  C4_bindingMismatch.1 0 (some "127.0.0.2") (some "Authorization=abc")
    "127.0.0.2" "abc" ([105, 183], []) (by decide) (by decide) (by decide)
    (by decide)

/-- C10: a request with no `X-Forwarded-For` header, or whose
comma-separated entries all fail the full IPv4 pattern match, is rejected
with the missing-client-IP diagnostic whatever the `Cookie` header and
clock say — before any cookie extraction, parsing, signature or expiry
check can matter — while the README's accepted request (whose first
matching entry `127.0.0.1` equals the cookie's bound IP) passes the whole
pipeline. -/
theorem C10_clientIpExtraction :
    (∀ (ch : Option String) (now : Int),
      authCookieOnRequest now none ch = Decision.response 403 [] bodyMissingIp) ∧
    (∀ xff : String, (∀ e ∈ splitSeg ',' xff.data, ipv4Full e = false) →
      ∀ (ch : Option String) (now : Int),
        authCookieOnRequest now (some xff) ch =
          Decision.response 403 [] bodyMissingIp) ∧
    authCookieOnRequest exampleNowNs
        (some "<existing-values>,127.0.0.1,<load-balancer-ip>")
        (some ("Authorization=" ++ exampleCookie)) = Decision.proceed := by
  refine ⟨?_, ?_, by decide⟩
  · intro ch now
    rfl
  · intro xff hxff ch now
    have hfind : (splitSeg ',' xff.data).find? ipv4Full = none := by
      rw [List.find?_eq_none]
      intro x hx
      simp [hxff x hx]
    simp [authCookieOnRequest, getClientIp, hfind]

/-- C10, witness: the `NoClientIP` test input — every entry fails the
IPv4 pattern — is rejected with the missing-client-IP body although a
syntactically valid cookie is present. -/
theorem C10_clientIpExtraction_witness :
    authCookieOnRequest 0 (some "<existing-values>,<not-an-ip>,<not-an-ip-also>")
        (some "Authorization=abc.def") =
      Decision.response 403 [] bodyMissingIp :=
  C10_clientIpExtraction.2.1 "<existing-values>,<not-an-ip>,<not-an-ip-also>"
    (by decide) (some "Authorization=abc.def") 0

/-! ## Lemmas about the credit-card masker -/

theorem take4Digits_exact {g : List Char} (rest : List Char) (h4 : g.length = 4)
    (hd : ∀ c ∈ g, c.isDigit = true) :
    take4Digits (g ++ rest) = some (g, rest) := by
  rcases g with _ | ⟨a, _ | ⟨b, _ | ⟨c, _ | ⟨d, _ | ⟨e, g5⟩⟩⟩⟩⟩
  · simp at h4
  · simp at h4
  · simp at h4
  · simp at h4
  · simp [take4Digits, hd a (by simp), hd b (by simp), hd c (by simp),
      hd d (by simp)]
  · simp at h4

theorem take4Digits_nondigit (c : Char) (cs : List Char) (h : c.isDigit = false) :
    take4Digits (c :: cs) = none := by
  cases cs with
  | nil => rfl
  | cons b l2 =>
    cases l2 with
    | nil => rfl
    | cons d l3 =>
      cases l3 with
      | nil => rfl
      | cons e l4 => simp [take4Digits, h]

theorem matchCard_nondigit (c : Char) (cs : List Char) (h : c.isDigit = false) :
    matchCard (c :: cs) = none := by
  simp [matchCard, take4Digits_nondigit c cs h]

theorem matchCard_at (g1 g2 g3 g4 tail : List Char)
    (h1 : g1.length = 4) (h2 : g2.length = 4) (h3 : g3.length = 4)
    (h4 : g4.length = 4)
    (hd1 : ∀ c ∈ g1, c.isDigit = true) (hd2 : ∀ c ∈ g2, c.isDigit = true)
    (hd3 : ∀ c ∈ g3, c.isDigit = true) (hd4 : ∀ c ∈ g4, c.isDigit = true) :
    matchCard (cardFmt g1 g2 g3 g4 ++ tail) = some g4 := by
  have e : cardFmt g1 g2 g3 g4 ++ tail =
      g1 ++ ('-' :: (g2 ++ ('-' :: (g3 ++ ('-' :: (g4 ++ tail)))))) := by
    simp [cardFmt]
  have t1 := take4Digits_exact ('-' :: (g2 ++ ('-' :: (g3 ++ ('-' :: (g4 ++ tail)))))) h1 hd1
  have t2 := take4Digits_exact ('-' :: (g3 ++ ('-' :: (g4 ++ tail)))) h2 hd2
  have t3 := take4Digits_exact ('-' :: (g4 ++ tail)) h3 hd3
  have t4 := take4Digits_exact tail h4 hd4
  rw [e]
  simp [matchCard, t1, t2, t3, t4, expectDash]

theorem maskSkip (l tail : List Char) : maskAllGo l.length (l ++ tail) = maskAllGo 0 tail := by
  induction l with
  | nil => rfl
  | cons c cs ih => simpa [maskAllGo] using ih

theorem maskAll_nondigit_front (a rest : List Char)
    (ha : ∀ c ∈ a, c.isDigit = false) :
    maskAllGo 0 (a ++ rest) = a ++ maskAllGo 0 rest := by
  induction a with
  | nil => rfl
  | cons c cs ih =>
    have hc : c.isDigit = false := ha c (List.mem_cons_self c cs)
    have hcs : ∀ x ∈ cs, x.isDigit = false :=
      fun x hx => ha x (List.mem_cons_of_mem c hx)
    simp [maskAllGo, matchCard_nondigit c _ hc, ih hcs]

theorem maskAll_nondigit_id (a : List Char) (ha : ∀ c ∈ a, c.isDigit = false) :
    maskAllGo 0 a = a := by
  have := maskAll_nondigit_front a [] ha
  simpa [show maskAllGo 0 [] = [] from rfl] using this

theorem mask_card_step (g1 g2 g3 g4 tail : List Char)
    (h1 : g1.length = 4) (h2 : g2.length = 4) (h3 : g3.length = 4)
    (h4 : g4.length = 4)
    (hd1 : ∀ c ∈ g1, c.isDigit = true) (hd2 : ∀ c ∈ g2, c.isDigit = true)
    (hd3 : ∀ c ∈ g3, c.isDigit = true) (hd4 : ∀ c ∈ g4, c.isDigit = true) :
    maskAllGo 0 (cardFmt g1 g2 g3 g4 ++ tail) =
      maskHead ++ g4 ++ maskAllGo 0 tail := by
  have hm := matchCard_at g1 g2 g3 g4 tail h1 h2 h3 h4 hd1 hd2 hd3 hd4
  rcases g1 with _ | ⟨a, _ | ⟨b, _ | ⟨c, _ | ⟨d, _ | ⟨e, g5⟩⟩⟩⟩⟩
  · simp at h1
  · simp at h1
  · simp at h1
  · simp at h1
  · have hskip14 : maskAllGo 14 (g2 ++ '-' :: (g3 ++ '-' :: (g4 ++ tail))) =
        maskAllGo 0 tail := by
      have h := maskSkip (g2 ++ '-' :: (g3 ++ '-' :: g4)) tail
      have hl : (g2 ++ '-' :: (g3 ++ '-' :: g4)).length = 14 := by
        simp [h2, h3, h4]
      rw [hl] at h
      simpa [List.append_assoc] using h
    simp only [cardFmt, List.cons_append, List.append_assoc] at hm ⊢
    simp only [maskAllGo, hm]
    simp [List.cons_append, List.append_assoc, hskip14]
  · simp at h1

/-! ## Claim C7 -/

/-- C7: `maskPattern` with the card pattern and template
`XXXX-XXXX-XXXX-$1` replaces all matches within a single input: the cited
example is masked keeping its last four digits, and in general an input
holding two card numbers (any digit groups, separated by digit-free text)
has both occurrences masked, each preserving its own last group via the
capture. -/
theorem C7_maskPattern :
    maskCardNumbers "1234-5678-9123-4567" = "XXXX-XXXX-XXXX-4567" ∧
    ∀ a b c g1 g2 g3 g4 k1 k2 k3 k4 : List Char,
      (∀ x ∈ a, x.isDigit = false) → (∀ x ∈ b, x.isDigit = false) →
      (∀ x ∈ c, x.isDigit = false) →
      g1.length = 4 → g2.length = 4 → g3.length = 4 → g4.length = 4 →
      k1.length = 4 → k2.length = 4 → k3.length = 4 → k4.length = 4 →
      (∀ x ∈ g1, x.isDigit = true) → (∀ x ∈ g2, x.isDigit = true) →
      (∀ x ∈ g3, x.isDigit = true) → (∀ x ∈ g4, x.isDigit = true) →
      (∀ x ∈ k1, x.isDigit = true) → (∀ x ∈ k2, x.isDigit = true) →
      (∀ x ∈ k3, x.isDigit = true) → (∀ x ∈ k4, x.isDigit = true) →
      maskAllGo 0 (a ++ cardFmt g1 g2 g3 g4 ++ b ++ cardFmt k1 k2 k3 k4 ++ c) =
        a ++ maskHead ++ g4 ++ b ++ maskHead ++ k4 ++ c := by
  refine ⟨by decide, ?_⟩
  intro a b c g1 g2 g3 g4 k1 k2 k3 k4 hna hnb hnc hg1 hg2 hg3 hg4 hk1 hk2 hk3 hk4
    hd1 hd2 hd3 hd4 he1 he2 he3 he4
  have step1 := mask_card_step g1 g2 g3 g4 (b ++ (cardFmt k1 k2 k3 k4 ++ c))
    hg1 hg2 hg3 hg4 hd1 hd2 hd3 hd4
  have step2 := mask_card_step k1 k2 k3 k4 c hk1 hk2 hk3 hk4 he1 he2 he3 he4
  calc maskAllGo 0 (a ++ cardFmt g1 g2 g3 g4 ++ b ++ cardFmt k1 k2 k3 k4 ++ c)
      = maskAllGo 0 (a ++ (cardFmt g1 g2 g3 g4 ++ (b ++ (cardFmt k1 k2 k3 k4 ++ c)))) := by
        simp [List.append_assoc]
    _ = a ++ maskAllGo 0 (cardFmt g1 g2 g3 g4 ++ (b ++ (cardFmt k1 k2 k3 k4 ++ c))) :=
        maskAll_nondigit_front a _ hna
    _ = a ++ (maskHead ++ g4 ++ maskAllGo 0 (b ++ (cardFmt k1 k2 k3 k4 ++ c))) := by
        rw [step1]
    _ = a ++ (maskHead ++ g4 ++ (b ++ maskAllGo 0 (cardFmt k1 k2 k3 k4 ++ c))) := by
        rw [maskAll_nondigit_front b _ hnb]
    _ = a ++ (maskHead ++ g4 ++ (b ++ (maskHead ++ k4 ++ maskAllGo 0 c))) := by
        rw [step2]
    _ = a ++ (maskHead ++ g4 ++ (b ++ (maskHead ++ k4 ++ c))) := by
        rw [maskAll_nondigit_id c hnc]
    _ = a ++ maskHead ++ g4 ++ b ++ maskHead ++ k4 ++ c := by
        simp [List.append_assoc]

/-- C7, witness: the test body carrying `1234-5678-9123-4567` and
`1234-4567-9123-8886` separated by digit-free text has both card numbers
masked, each keeping its own last four digits. -/
theorem C7_maskPattern_witness :
    maskAllGo 0 ("see ".data ++
        cardFmt ['1', '2', '3', '4'] ['5', '6', '7', '8'] ['9', '1', '2', '3'] ['4', '5', '6', '7'] ++
        " and ".data ++
        cardFmt ['1', '2', '3', '4'] ['4', '5', '6', '7'] ['9', '1', '2', '3'] ['8', '8', '8', '6'] ++
        " end".data) =
      "see ".data ++ maskHead ++ ['4', '5', '6', '7'] ++ " and ".data ++
        maskHead ++ ['8', '8', '8', '6'] ++ " end".data :=
  C7_maskPattern.2 "see ".data " and ".data " end".data
    ['1', '2', '3', '4'] ['5', '6', '7', '8'] ['9', '1', '2', '3'] ['4', '5', '6', '7']
    ['1', '2', '3', '4'] ['4', '5', '6', '7'] ['9', '1', '2', '3'] ['8', '8', '8', '6']
    (by decide) (by decide) (by decide) (by decide) (by decide) (by decide)
    (by decide) (by decide) (by decide) (by decide) (by decide) (by decide)
    (by decide) (by decide) (by decide) (by decide) (by decide) (by decide)
    (by decide)

end SvcExt
